import Mathlib

/-!
Verification of the Prompt Vault library manager (src/script.js) against its
natural-language specification.

Modelling conventions:
* JavaScript strings are modelled as `List Char` (`JsStr`); `String` literals
  are converted with `.data` in concrete examples.
* JavaScript numbers appearing in arithmetic on similarity scores are modelled
  as exact rationals (`ℚ`); ratings and percentages are integers (`ℤ`).
* DOM state that carries program data (the category sidebar items with their
  `data-category` keys, the rendered prompt cards) is modelled structurally:
  a category item is its key and display name, a card is the set of text
  fields the card template actually renders.
* Code that throws (a property access on a `null` element) is modelled with
  `Option`: `none` is an uncaught TypeError.
-/

/-- A JavaScript string, modelled as its list of characters. -/
abbrev JsStr := List Char

/-- `String.prototype.toLowerCase`, character by character. -/
def jsToLower (s : JsStr) : JsStr := s.map Char.toLower

/-- `String.prototype.trim`: strip whitespace from both ends. -/
def jsTrim (s : JsStr) : JsStr :=
  (((s.dropWhile Char.isWhitespace).reverse).dropWhile Char.isWhitespace).reverse

/-- `String.prototype.split(sep)` for a one-character separator: splitting the
empty string yields `[""]`, and every separator occurrence opens a new piece. -/
def splitOnChar (sep : Char) : JsStr → List JsStr
  | [] => [[]]
  | c :: cs =>
    match splitOnChar sep cs with
    | [] => [[c]]
    | h :: t => if c = sep then [] :: h :: t else (c :: h) :: t

/-- Does `hay` start with `pre`? (`String.prototype.startsWith`). -/
def startsWithL : JsStr → JsStr → Bool
  | _, [] => true
  | [], _ :: _ => false
  | c :: cs, p :: ps => c = p && startsWithL cs ps

/-- `String.prototype.includes`: contiguous substring containment. -/
def jsIncludes (hay needle : JsStr) : Bool :=
  match hay with
  | [] => startsWithL [] needle
  | _ :: cs => startsWithL hay needle || jsIncludes cs needle

/-- `Math.round` on an exact rational: floor of `q + 1/2` (ties go up). -/
def jsRound (q : ℚ) : ℤ := ⌊q + 1 / 2⌋

/-- One row update of the rolling-array edit-distance loop in
`getEditDistance` (script.js:1293-1314).  `prev` is the tail of the previous
row starting at the diagonal cell, `bs` the remaining characters of `s2`,
`lastV` the value most recently written for the current row.  The produced
list is the current row from the current column onward. -/
def nextRow (c : Char) : List ℕ → JsStr → ℕ → List ℕ
  | d :: up :: rest, b :: bs, lastV =>
      lastV :: nextRow c (up :: rest) bs (if c = b then d else min (min d lastV) up + 1)
  | _, _, lastV => [lastV]

/-- The outer loop of `getEditDistance`: fold each character of `s1` (row
index `i+1`, initial cell value `i+1`) over the cost row. -/
def getEditDistanceAux (s2 : JsStr) : JsStr → ℕ → List ℕ → List ℕ
  | [], _, costs => costs
  | c :: cs, i, costs => getEditDistanceAux s2 cs (i + 1) (nextRow c costs s2 (i + 1))

/-- `getEditDistance(s1, s2)` (script.js:1293-1314): Levenshtein distance via
a rolling cost array; the result is `costs[s2.length]`, the last cell of the
final row. -/
def getEditDistance (s1 s2 : JsStr) : ℕ :=
  (getEditDistanceAux s2 s1 0 (List.range (s2.length + 1))).getD s2.length 0

/-- `calculateSimilarity(str1, str2)` (script.js:1283-1291): `1` when both
strings are empty, otherwise `(longer.length - editDistance) / longer.length`
as an exact rational. -/
def calculateSimilarity (str1 str2 : JsStr) : ℚ :=
  let longer := if str2.length < str1.length then str1 else str2
  let shorter := if str2.length < str1.length then str2 else str1
  if longer.length = 0 then 1
  else ((longer.length : ℚ) - (getEditDistance longer shorter : ℚ)) / (longer.length : ℚ)

/-- A prompt record (the object shape built in `savePrompt`, script.js:452-480). -/
structure Prompt where
  id : JsStr
  title : JsStr
  category : JsStr
  tags : List JsStr
  text : JsStr
  notes : JsStr
  rating : ℤ
  resultImages : List JsStr
  inputImage : Option JsStr
  createdAt : JsStr
  updatedAt : JsStr
deriving Repr, DecidableEq

/-- An entry of the list built by `findDuplicatePrompts` (script.js:1271-1275);
the `similarity` field stores `Math.round(similarity * 100)`. -/
structure DupEntry where
  prompt1 : Prompt
  prompt2 : Prompt
  similarity : ℤ
deriving Repr, DecidableEq

/-- `findDuplicatePrompts()` (script.js:1264-1281): scan every index pair
`i < j`, report the pair when `calculateSimilarity > 0.7`. -/
def findDuplicatePrompts : List Prompt → List DupEntry
  | [] => []
  | p :: rest =>
      (rest.filterMap fun q =>
        let s := calculateSimilarity p.text q.text
        if 7 / 10 < s then some ⟨p, q, jsRound (s * 100)⟩ else none)
      ++ findDuplicatePrompts rest

/-- A category sidebar item: its `data-category` key (full slash path) and its
`data-name` display label. -/
structure CatNode where
  key : JsStr
  name : JsStr
deriving Repr, DecidableEq

/-- `updateDescendantKeys(oldKey, newKey, newDisplay)` (script.js:1958-2004):
the renamed item gets the new key and display name, every item whose key
starts with `oldKey + "/"` is rewritten to `newKey + "/" + rest`
(`rest = key.slice(oldKey.length + 1)`), and every prompt whose category is
the old key or a descendant path is rewritten by prefix substitution
(`newKey + p.category.slice(oldKey.length)`). -/
def updateDescendantKeys (oldKey newKey newDisplay : JsStr)
    (tree : List CatNode) (prompts : List Prompt) : List CatNode × List Prompt :=
  (tree.map fun n =>
      if n.key = oldKey then { n with key := newKey, name := newDisplay }
      else if startsWithL n.key (oldKey ++ ['/']) then
        { n with key := newKey ++ '/' :: n.key.drop (oldKey.length + 1) }
      else n,
   prompts.map fun p =>
      if p.category = oldKey then { p with category := newKey }
      else if startsWithL p.category (oldKey ++ ['/']) then
        { p with category := newKey ++ p.category.drop oldKey.length }
      else p)

/-- The category edit handler (script.js:1872-1895): cancel on empty input,
compute `newKey = newDisplay.trim().toLowerCase()`, bail out when the key is
unchanged or collides with an existing item, otherwise run
`updateDescendantKeys`.  `none` means no rename happened. -/
def renameCategory (tree : List CatNode) (prompts : List Prompt)
    (oldKey newDisplay : JsStr) : Option (List CatNode × List Prompt) :=
  if newDisplay = [] then none
  else
    let newKey := jsToLower (jsTrim newDisplay)
    if newKey = oldKey then none
    else if tree.any fun n => n.key = newKey then none
    else some (updateDescendantKeys oldKey newKey (jsTrim newDisplay) tree prompts)

/-- `deleteCategoryAndDescendants(keyToDelete, li)` (script.js:2007-2029):
prompts in the deleted category or a descendant path are reassigned to
`"other"`; the item and every descendant item (key equal to the deleted key or
starting with it plus `"/"`) are removed. -/
def deleteCategoryAndDescendants (keyToDelete : JsStr)
    (tree : List CatNode) (prompts : List Prompt) : List CatNode × List Prompt :=
  (tree.filter fun n =>
      !(n.key = keyToDelete || startsWithL n.key (keyToDelete ++ ['/'])),
   prompts.map fun p =>
      if p.category = keyToDelete || startsWithL p.category (keyToDelete ++ ['/']) then
        { p with category := "other".data }
      else p)

/-- The `protect` list of `makeCategoryItem` (script.js:1817). -/
def protectedKeys : List JsStr := ["favorites".data, "other".data]

/-- `makeCategoryItem` hides the delete button exactly for protected keys
(script.js:1842-1844); no other control is hidden. -/
def delBtnHidden (key : JsStr) : Bool := protectedKeys.any fun k => k = key

/-- The mutable globals of script.js relevant to the record store
(script.js:49-62): the prompt collection, the favorites id list, the two
undo/redo stacks of collection snapshots, and the search cache mapping a
normalized query to a list of matching ids. -/
structure AppState where
  prompts : List Prompt
  favorites : List JsStr
  undoStack : List (List Prompt)
  redoStack : List (List Prompt)
  searchCache : List (JsStr × List JsStr)
deriving Repr, DecidableEq

/-- `saveState()` (script.js:1157-1164): push a snapshot of `prompts` onto
`undoStack`, clear `redoStack`, drop the oldest snapshot when the stack
exceeds 20 entries. -/
def saveState (s : AppState) : AppState :=
  let u := s.undoStack ++ [s.prompts]
  { s with undoStack := if 20 < u.length then u.drop 1 else u, redoStack := [] }

/-- The raw values read from the prompt form at the top of `savePrompt`
(script.js:417-422); `rating` stands for `parseInt(...) || 0`. -/
structure FormInput where
  title : JsStr
  category : JsStr
  tagsRaw : JsStr
  text : JsStr
  notes : JsStr
  rating : ℤ
deriving Repr, DecidableEq

/-- `savePrompt` (script.js:412-495): trim title/text/notes, split and clean
the tags, validate (`!title || !category || !text` aborts with no mutation),
then snapshot history, update the prompt at `editingPromptId` or prepend a
new prompt, and clear the search cache.  `newId` models `generateId()` and
`now` the `new Date().toISOString()` stamps; `resultImages`/`inputImage` are
the image-cache contents gathered from the upload boxes. -/
def savePrompt (form : FormInput) (editingPromptId : Option JsStr)
    (newId now : JsStr) (resultImages : List JsStr) (inputImage : Option JsStr)
    (s : AppState) : AppState :=
  let title := jsTrim form.title
  let category := form.category
  let tags := ((splitOnChar ',' form.tagsRaw).map jsTrim).filter (· ≠ [])
  let text := jsTrim form.text
  let notes := jsTrim form.notes
  if title = [] || category = [] || text = [] then s
  else
    let s1 := saveState s
    let s2 :=
      match editingPromptId with
      | some eid =>
          match s1.prompts.findIdx? fun (p : Prompt) => p.id = eid with
          | some idx =>
              { s1 with prompts := s1.prompts.mapIdx fun (j : ℕ) (p : Prompt) =>
                  if j = idx then
                    { p with title := title, category := category, tags := tags,
                             text := text, notes := notes, rating := form.rating,
                             resultImages := resultImages, inputImage := inputImage,
                             updatedAt := now }
                  else p }
          | none => s1
      | none =>
          { s1 with prompts :=
              ⟨newId, title, category, tags, text, notes, form.rating,
               resultImages, inputImage, now, now⟩ :: s1.prompts }
    { s2 with searchCache := [] }

/-- The confirmed branch of `deletePrompt` (script.js:504-541): when a prompt
with the id exists, splice it out, remove the id from favorites, and clear the
search cache.  No history snapshot is taken (`saveState` is not called). -/
def deletePrompt (promptId : JsStr) (s : AppState) : AppState :=
  if s.prompts.any fun p => p.id = promptId then
    { s with prompts := s.prompts.eraseP fun p => decide (p.id = promptId),
             favorites := s.favorites.erase promptId,
             searchCache := [] }
  else s

/-- `toggleFavorite(promptId)` (script.js:547-591): append the id when absent,
splice out its first occurrence when present.  Only `favorites` changes. -/
def toggleFavorite (promptId : JsStr) (s : AppState) : AppState :=
  if s.favorites.any fun x => x = promptId then
    { s with favorites := s.favorites.erase promptId }
  else
    { s with favorites := s.favorites ++ [promptId] }

/-- `undo()` (script.js:1166-1175): when `undoStack` is nonempty, push the
current collection onto `redoStack`, pop the newest snapshot and restore it.
The search cache is not touched. -/
def undo (s : AppState) : AppState :=
  match s.undoStack.getLast? with
  | none => s
  | some prev =>
      { s with redoStack := s.redoStack ++ [s.prompts],
               prompts := prev,
               undoStack := s.undoStack.dropLast }

/-- `redo()` (script.js:1177-1186), symmetric to `undo`. -/
def redo (s : AppState) : AppState :=
  match s.redoStack.getLast? with
  | none => s
  | some nxt =>
      { s with undoStack := s.undoStack ++ [s.prompts],
               prompts := nxt,
               redoStack := s.redoStack.dropLast }

/-- A record as found in an imported JSON file: every field may be absent. -/
structure RawPrompt where
  id : Option JsStr
  title : Option JsStr
  category : Option JsStr
  tags : Option (List JsStr)
  text : Option JsStr
  notes : Option JsStr
  resultImages : Option (List JsStr)
  inputImage : Option JsStr
  createdAt : Option JsStr
  updatedAt : Option JsStr
deriving Repr, DecidableEq

/-- JavaScript `x || dflt` for a possibly-absent string field: `undefined`
and the empty string are falsy. -/
def jsOrStr (o : Option JsStr) (dflt : JsStr) : JsStr :=
  match o with
  | none => dflt
  | some s => if s = [] then dflt else s

/-- The field-defaulting map of the import handler (script.js:949-960).  The
mapping copies a fixed field list; `rating` is not among them, so it reads
back as 0 (`prompt.rating || 0`) afterwards. -/
def normalizeRaw (r : RawPrompt) (freshId now : JsStr) : Prompt :=
  { id := jsOrStr r.id freshId,
    title := jsOrStr r.title "Untitled".data,
    category := jsOrStr r.category "other".data,
    tags := r.tags.getD [],
    text := jsOrStr r.text [],
    notes := jsOrStr r.notes [],
    rating := 0,
    resultImages := r.resultImages.getD [],
    inputImage := match r.inputImage with
      | none => none
      | some s => if s = [] then none else some s,
    createdAt := jsOrStr r.createdAt now,
    updatedAt := jsOrStr r.updatedAt now }

/-- The confirmed branch of `handleFileImport` (script.js:944-972): replace the
collection with the normalized imported prompts.  Favorites, both history
stacks, and the search cache are left untouched. -/
def handleFileImport (imported : List RawPrompt) (fresh : ℕ → JsStr) (now : JsStr)
    (s : AppState) : AppState :=
  { s with prompts := imported.mapIdx fun i r => normalizeRaw r (fresh i) now }

/-- The searchable parts of a card produced by `createPromptCard`
(script.js:181-323): the `.prompt-title-text` content, the element matched by
`.prompt-text` (none: the compact card template, script.js:268-305, renders no
element with that class), and the `.tag` contents. -/
structure PromptCard where
  id : JsStr
  titleText : JsStr
  promptTextEl : Option JsStr
  tagEls : List JsStr
deriving Repr, DecidableEq

/-- `createPromptCard(prompt)` (script.js:181-323) as seen by the search
handler: the title div carries the title, tags are rendered trimmed, and no
`.prompt-text` element exists in the card. -/
def createPromptCard (p : Prompt) : PromptCard :=
  { id := p.id, titleText := p.title, promptTextEl := none, tagEls := p.tags.map jsTrim }

/-- The per-card match test of the search input handler (script.js:2278-2290).
Reading `.textContent` of the missing `.prompt-text` element throws a
TypeError, modelled as `none`. -/
def cardSearchMatch (searchTerm : JsStr) (card : PromptCard) : Option Bool :=
  match card.promptTextEl with
  | none => none
  | some body =>
      some (jsIncludes (jsToLower card.titleText) searchTerm
        || jsIncludes (jsToLower body) searchTerm
        || card.tagEls.any fun t => jsIncludes (jsToLower t) searchTerm)

/-- The uncached branch of the search input handler (script.js:2258-2296):
normalize the term (`toLowerCase().trim()`), collect the ids of matching
cards.  `none` when the per-card test throws. -/
def searchInputHandler (rawTerm : JsStr) (cards : List PromptCard) :
    Option (List JsStr) :=
  let searchTerm := jsTrim (jsToLower rawTerm)
  cards.foldr
    (fun card acc =>
      match cardSearchMatch searchTerm card, acc with
      | some true, some ids => some (card.id :: ids)
      | some false, some ids => some ids
      | _, _ => none)
    (some [])

/-- The JSON object carried by a share token, with every field optional as
after `JSON.parse` of an arbitrary token. -/
structure SharePayload where
  title : Option JsStr
  category : Option JsStr
  tags : Option (List JsStr)
  text : Option JsStr
  notes : Option JsStr
  rating : Option ℤ
deriving Repr, DecidableEq

/-- `sharePrompt` (script.js:988-1019): the shareable subset placed into the
token, every field present.  The base64/JSON transport (`btoa(JSON.stringify)`)
is modelled structurally. -/
def sharePrompt (p : Prompt) : SharePayload :=
  { title := some p.title, category := some p.category, tags := some p.tags,
    text := some p.text, notes := some p.notes, rating := some p.rating }

/-- The form contents after `checkSharedPrompt` loads a decoded token. -/
structure SharedForm where
  title : JsStr
  category : JsStr
  tagsText : JsStr
  text : JsStr
  notes : JsStr
  rating : ℤ
deriving Repr, DecidableEq

/-- `Array.prototype.join(", ")`. -/
def joinComma : List JsStr → JsStr
  | [] => []
  | [t] => t
  | t :: ts => t ++ ',' :: ' ' :: joinComma ts

/-- `checkSharedPrompt` (script.js:1025-1057): load the decoded payload into
the form with `||` defaults; tags are joined with `", "`; the rating field is
only written when truthy, otherwise it keeps the reset-form default 0.
(The form markup itself is not in src/; modelled from the spec, rating 0 =
unrated default.) -/
def checkSharedPrompt (payload : SharePayload) : SharedForm :=
  { title := jsOrStr payload.title [],
    category := jsOrStr payload.category "other".data,
    tagsText := joinComma (payload.tags.getD []),
    text := jsOrStr payload.text [],
    notes := jsOrStr payload.notes [],
    rating := match payload.rating with
      | none => 0
      | some r => if r = 0 then 0 else r }


/-- Fixture: a minimal prompt record used in concrete scenarios. -/
def mkPrompt (i t c body : String) : Prompt :=
  ⟨i.data, t.data, c.data, [], body.data, [], 0, [], none,
   "2026-01-01".data, "2026-01-01".data⟩

/-- Fixture for the duplicate-detection scenario (spec section 8). -/
def pyPromptA : Prompt := mkPrompt "s1" "Py A" "code" "Create a Python script"

/-- Fixture for the duplicate-detection scenario (spec section 8). -/
def pyPromptB : Prompt := mkPrompt "s2" "Py B" "code" "Create a Python scripts"

/-- Fixture: the empty store state. -/
def emptyState : AppState := ⟨[], [], [], [], []⟩

/-- Fixture: a valid filled-in prompt form. -/
def sampleForm : FormInput :=
  ⟨"New prompt".data, "art".data, "".data, "Prompt body".data, "".data, 0⟩

/-- Fixture record in category `"art"` (delete-category scenario). -/
def artP1 : Prompt := mkPrompt "a1" "A1" "art" "x"

/-- Fixture record in category `"art"` (delete-category scenario). -/
def artP2 : Prompt := mkPrompt "a2" "A2" "art" "y"

/-- Fixture record in subcategory `"art/portrait"` (delete-category scenario). -/
def artP3 : Prompt := mkPrompt "a3" "A3" "art/portrait" "z"

/-- Fixture collection for the delete-category scenario. -/
def artPrompts : List Prompt := [artP1, artP2, artP3]

/-- Fixture category sidebar for the delete-category scenario. -/
def artTree : List CatNode :=
  [⟨"art".data, "Art".data⟩, ⟨"art/portrait".data, "Portrait".data⟩,
   ⟨"other".data, "Other".data⟩]

/-!
## Lemmas about the rolling-array edit distance

Row invariants: processing row `i` of the dynamic program keeps every cell
`j` bounded by `max i j`, and on identical strings cell `j` of row `i` holds
`Nat.dist i j`.
-/

lemma nextRow_length (c : Char) :
    ∀ (bs : JsStr) (prev : List ℕ) (lastV : ℕ),
      prev.length = bs.length + 1 →
      (nextRow c prev bs lastV).length = bs.length + 1 := by
  intro bs
  induction bs with
  | nil => intro prev lastV _; simp [nextRow]
  | cons b bs ih =>
    intro prev lastV hlen
    cases prev with
    | nil => simp at hlen
    | cons d prev2 =>
      cases prev2 with
      | nil => simp at hlen
      | cons up rest =>
        simp only [nextRow, List.length_cons]
        rw [ih (up :: rest) _ (by simpa using hlen)]

lemma nextRow_bound (c : Char) :
    ∀ (bs : JsStr) (prev : List ℕ) (lastV i j0 : ℕ),
      prev.length = bs.length + 1 →
      (∀ k, k ≤ bs.length → prev.getD k 0 ≤ max i (j0 + k)) →
      lastV ≤ max (i + 1) j0 →
      ∀ k, k ≤ bs.length →
        (nextRow c prev bs lastV).getD k 0 ≤ max (i + 1) (j0 + k) := by
  intro bs
  induction bs with
  | nil =>
    intro prev lastV i j0 _ _ hlast k hk
    have hk0 : k = 0 := by simpa using hk
    subst hk0
    simpa [nextRow] using hlast
  | cons b bs ih =>
    intro prev lastV i j0 hlen hprev hlast k hk
    cases prev with
    | nil => simp at hlen
    | cons d prev2 =>
      cases prev2 with
      | nil => simp at hlen
      | cons up rest =>
        cases k with
        | zero => simpa [nextRow] using hlast
        | succ m =>
          have hd : d ≤ max i j0 := by simpa using hprev 0 (by omega)
          have hnv : (if c = b then d else min (min d lastV) up + 1) ≤ max (i + 1) (j0 + 1) := by
            split
            · omega
            · omega
          have hshift : ∀ n, n ≤ bs.length → (up :: rest).getD n 0 ≤ max i (j0 + 1 + n) := by
            intro n hn
            have := hprev (n + 1) (by simpa using Nat.succ_le_succ hn)
            simp only [List.getD_cons_succ] at this
            have harith : j0 + (n + 1) = j0 + 1 + n := by omega
            rwa [harith] at this
          have hmlen : m ≤ bs.length := by simpa using Nat.le_of_succ_le_succ hk
          have hrec := ih (up :: rest) (if c = b then d else min (min d lastV) up + 1)
            i (j0 + 1) (by simpa using hlen) hshift hnv m hmlen
          have harith : j0 + 1 + m = j0 + (m + 1) := by omega
          rw [harith] at hrec
          simpa [nextRow] using hrec

lemma getEditDistanceAux_length (s2 : JsStr) :
    ∀ (cs : JsStr) (i : ℕ) (row : List ℕ),
      row.length = s2.length + 1 →
      (getEditDistanceAux s2 cs i row).length = s2.length + 1 := by
  intro cs
  induction cs with
  | nil => intro i row h; simpa [getEditDistanceAux] using h
  | cons c cs ih =>
    intro i row h
    simp only [getEditDistanceAux]
    exact ih (i + 1) _ (nextRow_length c s2 row (i + 1) h)

lemma getEditDistanceAux_bound (s2 : JsStr) :
    ∀ (cs : JsStr) (i : ℕ) (row : List ℕ),
      row.length = s2.length + 1 →
      (∀ k, k ≤ s2.length → row.getD k 0 ≤ max i k) →
      ∀ k, k ≤ s2.length →
        (getEditDistanceAux s2 cs i row).getD k 0 ≤ max (i + cs.length) k := by
  intro cs
  induction cs with
  | nil =>
    intro i row _ hrow k hk
    simpa [getEditDistanceAux] using hrow k hk
  | cons c cs ih =>
    intro i row hlen hrow k hk
    simp only [getEditDistanceAux]
    have hstep : ∀ k, k ≤ s2.length →
        (nextRow c row s2 (i + 1)).getD k 0 ≤ max (i + 1) k := by
      intro k hk
      simpa using nextRow_bound c s2 row (i + 1) i 0 hlen
        (fun k hk => by simpa using hrow k hk) (le_max_left _ _) k hk
    have := ih (i + 1) (nextRow c row s2 (i + 1))
      (nextRow_length c s2 row (i + 1) hlen) hstep k hk
    simpa [Nat.add_assoc, Nat.add_comm 1 cs.length] using this

lemma range_getD (n k : ℕ) (h : k < n) : (List.range n).getD k 0 = k := by
  simp [List.getD, List.getElem?_range h]

theorem getEditDistance_le_max (s1 s2 : JsStr) :
    getEditDistance s1 s2 ≤ max s1.length s2.length := by
  have hinit : ∀ k, k ≤ s2.length → (List.range (s2.length + 1)).getD k 0 ≤ max 0 k := by
    intro k hk
    rw [range_getD _ _ (by omega)]
    omega
  have := getEditDistanceAux_bound s2 s1 0 (List.range (s2.length + 1))
    (by simp) hinit s2.length le_rfl
  simpa [getEditDistance] using this

lemma nextRow_dist (a : JsStr) (c : Char) :
    ∀ (bs : JsStr) (j0 : ℕ) (prev : List ℕ) (lastV i : ℕ),
      bs = a.drop j0 →
      prev.length = bs.length + 1 →
      (∀ k, k ≤ bs.length → prev.getD k 0 = Nat.dist i (j0 + k)) →
      lastV = Nat.dist (i + 1) j0 →
      (i < a.length → c = a.getD i 'A') →
      ∀ k, k ≤ bs.length →
        (nextRow c prev bs lastV).getD k 0 = Nat.dist (i + 1) (j0 + k) := by
  intro bs
  induction bs with
  | nil =>
    intro j0 prev lastV i _ _ _ hlast _ k hk
    have hk0 : k = 0 := by simpa using hk
    subst hk0
    simpa [nextRow]
  | cons b bs ih =>
    intro j0 prev lastV i hdrop hlen hprev hlast hc k hk
    cases prev with
    | nil => simp at hlen
    | cons d prev2 =>
      cases prev2 with
      | nil => simp at hlen
      | cons up rest =>
        have hj0 : j0 < a.length := by
          have := congrArg List.length hdrop
          simp [List.length_drop] at this
          omega
        have hb : b = a.getD j0 'A' := by
          have h0 : (a.drop j0).getD 0 'A' = b := by rw [← hdrop]; simp
          rw [← h0]
          simp [List.getD, List.getElem?_drop]
        cases k with
        | zero => simpa [nextRow] using hlast
        | succ m =>
          have hd : d = Nat.dist i j0 := by simpa using hprev 0 (by omega)
          have hup : up = Nat.dist i (j0 + 1) := by simpa using hprev 1 (by omega)
          have hnv : (if c = b then d else min (min d lastV) up + 1) = Nat.dist (i + 1) (j0 + 1) := by
            split
            · rw [hd]
              simp only [Nat.dist]
              omega
            · rename_i hcb
              have hne : i ≠ j0 := by
                intro hij
                apply hcb
                subst hij
                rw [hc hj0, ← hb]
              rw [hd, hup, hlast]
              simp only [Nat.dist]
              omega
          have hdrop2 : bs = a.drop (j0 + 1) := by
            have := congrArg List.tail hdrop
            simpa [List.tail_drop] using this
          have hshift : ∀ n, n ≤ bs.length → (up :: rest).getD n 0 = Nat.dist i (j0 + 1 + n) := by
            intro n hn
            have := hprev (n + 1) (by simpa using Nat.succ_le_succ hn)
            simp only [List.getD_cons_succ] at this
            have harith : j0 + (n + 1) = j0 + 1 + n := by omega
            rwa [harith] at this
          have hmlen : m ≤ bs.length := by simpa using Nat.le_of_succ_le_succ hk
          have hrec := ih (j0 + 1) (up :: rest) (if c = b then d else min (min d lastV) up + 1)
            i hdrop2 (by simpa using hlen) hshift hnv hc m hmlen
          have harith : j0 + 1 + m = j0 + (m + 1) := by omega
          rw [harith] at hrec
          simpa [nextRow] using hrec

lemma getEditDistanceAux_dist (a : JsStr) :
    ∀ (cs : JsStr) (i : ℕ) (row : List ℕ),
      cs = a.drop i →
      row.length = a.length + 1 →
      (∀ k, k ≤ a.length → row.getD k 0 = Nat.dist i k) →
      ∀ k, k ≤ a.length →
        (getEditDistanceAux a cs i row).getD k 0 = Nat.dist (i + cs.length) k := by
  intro cs
  induction cs with
  | nil =>
    intro i row _ _ hrow k hk
    simpa [getEditDistanceAux] using hrow k hk
  | cons c cs ih =>
    intro i row hdrop hlen hrow k hk
    have hi : i < a.length := by
      have := congrArg List.length hdrop
      simp [List.length_drop] at this
      omega
    have hc : c = a.getD i 'A' := by
      have h0 : (a.drop i).getD 0 'A' = c := by rw [← hdrop]; simp
      rw [← h0]
      simp [List.getD, List.getElem?_drop]
    have hstep : ∀ n, n ≤ a.length →
        (nextRow c row a (i + 1)).getD n 0 = Nat.dist (i + 1) n := by
      intro n hn
      have := nextRow_dist a c a 0 row (i + 1) i (by simp) (by simpa using hlen)
        (fun m hm => by simpa using hrow m hm)
        (by simp [Nat.dist]) (fun _ => hc) n hn
      simpa using this
    have hdrop2 : cs = a.drop (i + 1) := by
      have := congrArg List.tail hdrop
      simpa [List.tail_drop] using this
    have := ih (i + 1) (nextRow c row a (i + 1)) hdrop2
      (nextRow_length c a row (i + 1) hlen) hstep k hk
    have harith : i + 1 + cs.length = i + (cs.length + 1) := by omega
    rw [harith] at this
    simpa [getEditDistanceAux] using this

theorem getEditDistance_self (a : JsStr) : getEditDistance a a = 0 := by
  have hinit : ∀ k, k ≤ a.length → (List.range (a.length + 1)).getD k 0 = Nat.dist 0 k := by
    intro k hk
    rw [range_getD _ _ (by omega)]
    simp [Nat.dist]
  have := getEditDistanceAux_dist a a 0 (List.range (a.length + 1))
    (by simp) (by simp) hinit a.length le_rfl
  simpa [getEditDistance, Nat.dist] using this

lemma similarity_frac_bounds (s1 s2 : JsStr) (h : s2.length ≤ s1.length)
    (h0 : s1.length ≠ 0) :
    0 ≤ ((s1.length : ℚ) - (getEditDistance s1 s2 : ℚ)) / (s1.length : ℚ) ∧
    ((s1.length : ℚ) - (getEditDistance s1 s2 : ℚ)) / (s1.length : ℚ) ≤ 1 := by
  have hd : getEditDistance s1 s2 ≤ s1.length := by
    have := getEditDistance_le_max s1 s2
    omega
  have hdq : (getEditDistance s1 s2 : ℚ) ≤ (s1.length : ℚ) := by exact_mod_cast hd
  have hdq0 : (0 : ℚ) ≤ (getEditDistance s1 s2 : ℚ) := by positivity
  have hpos : (0 : ℚ) < (s1.length : ℚ) := by
    exact_mod_cast Nat.pos_of_ne_zero h0
  constructor
  · apply div_nonneg (by linarith) (le_of_lt hpos)
  · rw [div_le_one hpos]
    linarith

/-- C3: for all strings `a` and `b`, `calculateSimilarity a b` lies in the
interval `[0, 1]`; `calculateSimilarity a a = 1` for every string `a`; and
`calculateSimilarity` returns `1` when both strings are empty. -/
theorem calculateSimilarity_in_unit_and_refl :
    ∀ a b : JsStr,
      0 ≤ calculateSimilarity a b ∧ calculateSimilarity a b ≤ 1 ∧
      calculateSimilarity a a = 1 ∧ calculateSimilarity [] [] = 1 := by
  have hmain : ∀ a b : JsStr, 0 ≤ calculateSimilarity a b ∧ calculateSimilarity a b ≤ 1 := by
    intro a b
    by_cases hab : b.length < a.length
    · simp only [calculateSimilarity, if_pos hab]
      by_cases h0 : a.length = 0
      · simp [h0]
      · simp only [if_neg h0]
        exact similarity_frac_bounds a b (by omega) h0
    · simp only [calculateSimilarity, if_neg hab]
      by_cases h0 : b.length = 0
      · simp [h0]
      · simp only [if_neg h0]
        exact similarity_frac_bounds b a (by omega) h0
  have hself : ∀ a : JsStr, calculateSimilarity a a = 1 := by
    intro a
    have hlt : ¬ a.length < a.length := lt_irrefl _
    simp only [calculateSimilarity, if_neg hlt]
    by_cases h0 : a.length = 0
    · simp [h0]
    · have hz : (a.length : ℚ) ≠ 0 := Nat.cast_ne_zero.mpr h0
      simp only [if_neg h0, getEditDistance_self]
      push_cast
      rw [sub_zero, div_self hz]
  intro a b
  exact ⟨(hmain a b).1, (hmain a b).2, hself a, hself []⟩

/-!
## Duplicate detection
-/

lemma findDup_sound :
    ∀ (ps : List Prompt) (e : DupEntry), e ∈ findDuplicatePrompts ps →
      7 / 10 < calculateSimilarity e.prompt1.text e.prompt2.text ∧
      e.similarity = jsRound (calculateSimilarity e.prompt1.text e.prompt2.text * 100) := by
  intro ps
  induction ps with
  | nil => intro e he; simp [findDuplicatePrompts] at he
  | cons p rest ih =>
    intro e he
    simp only [findDuplicatePrompts, List.mem_append] at he
    rcases he with h | h
    · rw [List.mem_filterMap] at h
      obtain ⟨q, _, hsome⟩ := h
      by_cases hs : 7 / 10 < calculateSimilarity p.text q.text
      · rw [if_pos hs] at hsome
        cases hsome
        exact ⟨hs, rfl⟩
      · rw [if_neg hs] at hsome
        cases hsome
    · exact ih e h

lemma findDup_complete :
    ∀ (pre mid post : List Prompt) (p q : Prompt),
      7 / 10 < calculateSimilarity p.text q.text →
      (⟨p, q, jsRound (calculateSimilarity p.text q.text * 100)⟩ : DupEntry)
        ∈ findDuplicatePrompts (pre ++ p :: mid ++ q :: post) := by
  intro pre
  induction pre with
  | nil =>
    intro mid post p q hs
    apply List.mem_append_left
    rw [List.mem_filterMap]
    refine ⟨q, by simp, ?_⟩
    dsimp only
    rw [if_pos hs]
  | cons r pre ih =>
    intro mid post p q hs
    exact List.mem_append_right _ (ih mid post p q hs)

set_option maxRecDepth 4000 in
lemma pyPrompts_similarity : calculateSimilarity pyPromptA.text pyPromptB.text = 22 / 23 := by
  have hd : getEditDistance pyPromptB.text pyPromptA.text = 1 := by decide
  have hlt : ¬ pyPromptB.text.length < pyPromptA.text.length := by decide
  simp only [calculateSimilarity, if_neg hlt]
  rw [if_neg (show ¬ pyPromptB.text.length = 0 by decide)]
  rw [hd, (by decide : pyPromptB.text.length = 23)]
  norm_num

lemma pyPrompts_round : jsRound (22 / 23 * 100) = 96 := by
  rw [jsRound, Int.floor_eq_iff]
  norm_num

lemma findDup_py :
    findDuplicatePrompts [pyPromptA, pyPromptB] = [⟨pyPromptA, pyPromptB, 96⟩] := by
  have hf : (7 : ℚ) / 10 < calculateSimilarity pyPromptA.text pyPromptB.text := by
    rw [pyPrompts_similarity]; norm_num
  simp [findDuplicatePrompts, List.filterMap_cons, List.filterMap_nil, if_pos hf,
    pyPrompts_similarity, pyPrompts_round,
    if_pos (show (7 : ℚ) / 10 < 22 / 23 by norm_num)]

/-- C4: `findDuplicatePrompts` reports an unordered pair of records exactly
when the similarity of their texts strictly exceeds 0.7, storing
`Math.round(similarity * 100)`; in particular on the two records with texts
"Create a Python script" / "Create a Python scripts" the pair is reported with
percentage 96 ≥ 90. -/
theorem findDuplicatePrompts_spec :
    (∀ (ps : List Prompt) (e : DupEntry), e ∈ findDuplicatePrompts ps →
        7 / 10 < calculateSimilarity e.prompt1.text e.prompt2.text ∧
        e.similarity = jsRound (calculateSimilarity e.prompt1.text e.prompt2.text * 100))
    ∧ (∀ (pre mid post : List Prompt) (p q : Prompt),
        7 / 10 < calculateSimilarity p.text q.text →
        (⟨p, q, jsRound (calculateSimilarity p.text q.text * 100)⟩ : DupEntry)
          ∈ findDuplicatePrompts (pre ++ p :: mid ++ q :: post))
    ∧ findDuplicatePrompts [pyPromptA, pyPromptB] = [⟨pyPromptA, pyPromptB, 96⟩]
    ∧ (90 : ℤ) ≤ (⟨pyPromptA, pyPromptB, 96⟩ : DupEntry).similarity :=
  ⟨findDup_sound, findDup_complete, findDup_py, by norm_num⟩

/-- Witness for C4: the scenario pair is indeed reported. -/
theorem findDuplicatePrompts_spec_witness :
    (⟨pyPromptA, pyPromptB,
        jsRound (calculateSimilarity pyPromptA.text pyPromptB.text * 100)⟩ : DupEntry)
      ∈ findDuplicatePrompts ([] ++ pyPromptA :: [] ++ pyPromptB :: []) :=
  findDuplicatePrompts_spec.2.1 [] [] [] pyPromptA pyPromptB
    (by rw [pyPrompts_similarity]; norm_num)

/-!
## History: create, delete, undo
-/

lemma saveState_getLast (s : AppState) :
    (saveState s).undoStack.getLast? = some s.prompts := by
  simp only [saveState]
  split
  · rename_i h
    have hlen : 1 ≤ s.undoStack.length := by
      simp only [List.length_append, List.length_cons] at h
      simp at h ⊢
      omega
    rw [List.drop_append_of_le_length hlen, List.getLast?_concat]
  · exact List.getLast?_concat _

lemma deletePrompt_stacks (pid : JsStr) (s : AppState) :
    (deletePrompt pid s).undoStack = s.undoStack ∧
    (deletePrompt pid s).redoStack = s.redoStack := by
  simp only [deletePrompt]
  split <;> exact ⟨rfl, rfl⟩

lemma savePrompt_create_state (form : FormInput) (newId now : JsStr)
    (imgs : List JsStr) (inImg : Option JsStr) (s : AppState)
    (h1 : jsTrim form.title ≠ []) (h2 : form.category ≠ [])
    (h3 : jsTrim form.text ≠ []) :
    savePrompt form none newId now imgs inImg s =
      { saveState s with
          prompts := ⟨newId, jsTrim form.title, form.category,
              ((splitOnChar ',' form.tagsRaw).map jsTrim).filter (· ≠ []),
              jsTrim form.text, jsTrim form.notes, form.rating,
              imgs, inImg, now, now⟩ :: s.prompts,
          searchCache := [] } := by
  simp only [savePrompt]
  rw [if_neg (by simp [h1, h2, h3])]
  rfl

lemma delete_then_undo (s0 : AppState) (p : Prompt) :
    (undo (deletePrompt p.id
        { saveState s0 with prompts := p :: s0.prompts, searchCache := [] })).prompts
      = s0.prompts := by
  have herase : (p :: s0.prompts).eraseP (fun q => decide (q.id = p.id)) = s0.prompts :=
    List.eraseP_cons_of_pos (by simp)
  simp [deletePrompt, undo, herase, saveState_getLast]

/-- C1 (amended): `savePrompt` in create mode pushes a history snapshot, but
the confirmed delete action does not touch the history stacks (its own dialog
says the action cannot be undone); consequently `undo` after create-then-delete
restores the collection to its state before the creation, so the deleted
record reappears only if it existed before the creation. -/
theorem create_delete_undo_restores_precreate :
    ∀ (s : AppState) (form : FormInput) (newId now : JsStr)
      (imgs : List JsStr) (inImg : Option JsStr),
      jsTrim form.title ≠ [] → form.category ≠ [] → jsTrim form.text ≠ [] →
      (∀ pid, (deletePrompt pid s).undoStack = s.undoStack ∧
              (deletePrompt pid s).redoStack = s.redoStack) ∧
      (undo (deletePrompt newId
          (savePrompt form none newId now imgs inImg s))).prompts = s.prompts := by
  intro s form newId now imgs inImg h1 h2 h3
  refine ⟨fun pid => deletePrompt_stacks pid s, ?_⟩
  rw [savePrompt_create_state form newId now imgs inImg s h1 h2 h3]
  exact delete_then_undo s
    ⟨newId, jsTrim form.title, form.category,
     ((splitOnChar ',' form.tagsRaw).map jsTrim).filter (· ≠ []),
     jsTrim form.text, jsTrim form.notes, form.rating, imgs, inImg, now, now⟩

/-- Counterexample for C1 as stated: starting from the empty store, create a
record, delete it (confirmed), then `undo()`.  A record was created, delete
pushed no snapshot, and after `undo` the collection is empty: the deleted
record does not reappear. -/
theorem create_delete_undo_counterexample :
    (savePrompt sampleForm none "id1".data "t".data [] none emptyState).prompts ≠ []
    ∧ (deletePrompt "id1".data
        (savePrompt sampleForm none "id1".data "t".data [] none emptyState)).undoStack
      = (savePrompt sampleForm none "id1".data "t".data [] none emptyState).undoStack
    ∧ (undo (deletePrompt "id1".data
        (savePrompt sampleForm none "id1".data "t".data [] none emptyState))).prompts
      = [] := by decide

/-- Witness for C1 (amended) at a concrete input. -/
theorem create_delete_undo_restores_precreate_witness :
    (undo (deletePrompt "id1".data
        (savePrompt sampleForm none "id1".data "t".data [] none emptyState))).prompts
      = emptyState.prompts :=
  (create_delete_undo_restores_precreate emptyState sampleForm "id1".data "t".data [] none
    (by decide) (by decide) (by decide)).2

/-!
## Category rename cascade
-/

lemma startsWithL_exists :
    ∀ (pre hay : JsStr), startsWithL hay pre = true ↔ ∃ t, hay = pre ++ t := by
  intro pre
  induction pre with
  | nil =>
    intro hay
    simp [startsWithL]
  | cons p ps ih =>
    intro hay
    cases hay with
    | nil => simp [startsWithL]
    | cons c cs =>
      simp only [startsWithL, Bool.and_eq_true, decide_eq_true_eq, ih]
      constructor
      · rintro ⟨hcp, t, rfl⟩
        exact ⟨t, by rw [hcp]; rfl⟩
      · rintro ⟨t, h⟩
        injection h with h1 h2
        exact ⟨h1, t, h2⟩

lemma append_comparable :
    ∀ (a b t u : List Char), a ++ t = b ++ u → a.length ≤ b.length →
      ∃ w, b = a ++ w := by
  intro a
  induction a with
  | nil => intro b t u _ _; exact ⟨b, rfl⟩
  | cons x a ih =>
    intro b t u heq hlen
    cases b with
    | nil => simp at hlen
    | cons y b =>
      injection heq with h1 h2
      obtain ⟨w, hw⟩ := ih b t u h2 (by simpa using hlen)
      exact ⟨w, by rw [← h1, hw]; simp⟩

lemma rename_newKey_safe (oldKey newKey : JsStr)
    (hno1 : startsWithL (newKey ++ ['/']) (oldKey ++ ['/']) = false) :
    newKey ≠ oldKey ∧ startsWithL newKey (oldKey ++ ['/']) = false := by
  constructor
  · rintro rfl
    have htr : startsWithL (newKey ++ ['/']) (newKey ++ ['/']) = true :=
      (startsWithL_exists _ _).mpr ⟨[], by simp⟩
    rw [htr] at hno1
    simp at hno1
  · cases h : startsWithL newKey (oldKey ++ ['/']) with
    | false => rfl
    | true =>
      exfalso
      obtain ⟨t, rfl⟩ := (startsWithL_exists _ _).mp h
      have htr : startsWithL ((oldKey ++ ['/']) ++ t ++ ['/']) (oldKey ++ ['/']) = true :=
        (startsWithL_exists _ _).mpr ⟨t ++ ['/'], by simp⟩
      rw [htr] at hno1
      simp at hno1

lemma rename_descendant_safe (oldKey newKey t : JsStr)
    (hno1 : startsWithL (newKey ++ ['/']) (oldKey ++ ['/']) = false)
    (hno2 : startsWithL (oldKey ++ ['/']) (newKey ++ ['/']) = false) :
    newKey ++ '/' :: t ≠ oldKey ∧
    startsWithL (newKey ++ '/' :: t) (oldKey ++ ['/']) = false := by
  have hsplit : newKey ++ '/' :: t = (newKey ++ ['/']) ++ t := by simp
  constructor
  · intro hEq
    have htr : startsWithL (oldKey ++ ['/']) (newKey ++ ['/']) = true := by
      refine (startsWithL_exists _ _).mpr ⟨t ++ ['/'], ?_⟩
      rw [← hEq]
      simp
    rw [htr] at hno2
    simp at hno2
  · cases h : startsWithL (newKey ++ '/' :: t) (oldKey ++ ['/']) with
    | false => rfl
    | true =>
      exfalso
      obtain ⟨u, hu⟩ := (startsWithL_exists _ _).mp h
      rw [hsplit] at hu
      rcases Nat.le_total (newKey ++ ['/']).length (oldKey ++ ['/']).length with hle | hle
      · obtain ⟨w, hw⟩ := append_comparable (newKey ++ ['/']) (oldKey ++ ['/']) t u hu hle
        have htr : startsWithL (oldKey ++ ['/']) (newKey ++ ['/']) = true :=
          (startsWithL_exists _ _).mpr ⟨w, hw⟩
        rw [htr] at hno2
        simp at hno2
      · obtain ⟨w, hw⟩ := append_comparable (oldKey ++ ['/']) (newKey ++ ['/']) u t hu.symm hle
        have htr : startsWithL (newKey ++ ['/']) (oldKey ++ ['/']) = true :=
          (startsWithL_exists _ _).mpr ⟨w, hw⟩
        rw [htr] at hno1
        simp at hno1

/-- C2 (amended): after a successful category rename of `oldKey`, provided the
new key and the old path are not nested in each other (neither of
`newKey + "/"`, `oldKey + "/"` is a prefix of the other), no record category
equals the old path or starts with the old path plus `"/"`.  (Without that
proviso the claim fails, see the counterexample: a display name such as
`"Art/X"` produces a new key nested below the old path.) -/
theorem renameCategory_cascade (tree : List CatNode) (ps : List Prompt)
    (oldKey newDisplay : JsStr) (tree2 : List CatNode) (ps2 : List Prompt)
    (hsucc : renameCategory tree ps oldKey newDisplay = some (tree2, ps2))
    (hno1 : startsWithL (jsToLower (jsTrim newDisplay) ++ ['/']) (oldKey ++ ['/']) = false)
    (hno2 : startsWithL (oldKey ++ ['/']) (jsToLower (jsTrim newDisplay) ++ ['/']) = false) :
    ∀ p ∈ ps2, p.category ≠ oldKey ∧ startsWithL p.category (oldKey ++ ['/']) = false := by
  simp only [renameCategory] at hsucc
  split at hsucc
  · cases hsucc
  · split at hsucc
    · cases hsucc
    · split at hsucc
      · cases hsucc
      · injection hsucc with h
        have hps : ps2 = (updateDescendantKeys oldKey (jsToLower (jsTrim newDisplay))
            (jsTrim newDisplay) tree ps).2 := (congrArg Prod.snd h).symm
        intro p hp
        rw [hps] at hp
        simp only [updateDescendantKeys] at hp
        rw [List.mem_map] at hp
        obtain ⟨q, _, rfl⟩ := hp
        by_cases hc1 : q.category = oldKey
        · rw [if_pos hc1]
          exact rename_newKey_safe oldKey _ hno1
        · rw [if_neg hc1]
          cases hc2 : startsWithL q.category (oldKey ++ ['/']) with
          | true =>
            rw [if_pos rfl]
            obtain ⟨t, ht⟩ := (startsWithL_exists _ _).mp hc2
            have hdrop : q.category.drop oldKey.length = '/' :: t := by
              rw [ht, show (oldKey ++ ['/']) ++ t = oldKey ++ '/' :: t by simp,
                List.drop_left]
            simp only [hdrop]
            exact rename_descendant_safe oldKey _ t hno1 hno2
          | false =>
            rw [if_neg (by simp)]
            exact ⟨hc1, hc2⟩

/-- Counterexample for C2 as stated: renaming `"art"` with new display name
`"Art/X"` succeeds (new key `"art/x"` is distinct and unused), yet afterwards
the record that was in `"art"` has category `"art/x"`, which starts with
`"art" + "/"`. -/
theorem renameCategory_cascade_counterexample :
    (renameCategory [⟨"art".data, "Art".data⟩] [mkPrompt "a" "A" "art" "b"]
        "art".data "Art/X".data).map
      (fun r => r.2.map fun p => startsWithL p.category ("art".data ++ ['/']))
      = some [true] := by decide

/-- Witness for C2 (amended): renaming `"art"` to `"Misc"` on a store with a
record in `"art/sub"`; the rewritten record is outside the old subtree. -/
theorem renameCategory_cascade_witness :
    ({ mkPrompt "c" "C" "art/sub" "d" with category := "misc/sub".data } : Prompt).category
        ≠ "art".data
    ∧ startsWithL ({ mkPrompt "c" "C" "art/sub" "d" with
        category := "misc/sub".data } : Prompt).category ("art".data ++ ['/']) = false :=
  renameCategory_cascade [⟨"art".data, "Art".data⟩]
    [mkPrompt "a" "A" "art" "b", mkPrompt "c" "C" "art/sub" "d"]
    "art".data "Misc".data
    [⟨"misc".data, "Misc".data⟩]
    [{ mkPrompt "a" "A" "art" "b" with category := "misc".data },
     { mkPrompt "c" "C" "art/sub" "d" with category := "misc/sub".data }]
    (by decide) (by decide) (by decide)
    { mkPrompt "c" "C" "art/sub" "d" with category := "misc/sub".data }
    (by decide)

/-!
## Category deletion, reserved keys, search handler
-/

/-- C5: deleting a non-reserved category removes the node and every descendant
node, and reassigns exactly the records whose category equals the path or is a
descendant path to `"other"`; concretely, deleting `"art"` over records in
`"art"` and `"art/portrait"` moves all three records to `"other"` and leaves
only the `"other"` node. -/
theorem deleteCategoryAndDescendants_spec :
    ∀ (key : JsStr) (tree : List CatNode) (ps : List Prompt),
      delBtnHidden key = false →
      (∀ n ∈ (deleteCategoryAndDescendants key tree ps).1,
          n.key ≠ key ∧ startsWithL n.key (key ++ ['/']) = false)
      ∧ (∀ (i : ℕ) (p : Prompt), ps[i]? = some p →
          (deleteCategoryAndDescendants key tree ps).2[i]? =
            some (if p.category = key || startsWithL p.category (key ++ ['/'])
              then { p with category := "other".data } else p))
      ∧ deleteCategoryAndDescendants "art".data artTree artPrompts
          = ([⟨"other".data, "Other".data⟩],
             [{ artP1 with category := "other".data },
              { artP2 with category := "other".data },
              { artP3 with category := "other".data }]) := by
  intro key tree ps _
  refine ⟨?_, ?_, by decide⟩
  · intro n hn
    simp only [deleteCategoryAndDescendants] at hn
    rw [List.mem_filter] at hn
    simpa using hn.2
  · intro i p hip
    simp [deleteCategoryAndDescendants, List.getElem?_map, hip]

/-- Witness for C5: the concrete scenario instance. -/
theorem deleteCategoryAndDescendants_spec_witness :
    deleteCategoryAndDescendants "art".data artTree artPrompts
      = ([⟨"other".data, "Other".data⟩],
         [{ artP1 with category := "other".data },
          { artP2 with category := "other".data },
          { artP3 with category := "other".data }]) :=
  (deleteCategoryAndDescendants_spec "art".data artTree artPrompts (by decide)).2.2

/-- Counterexample for C6 as stated: renaming the reserved key `"other"` to
`"Misc"` does not fail; it succeeds and rewrites both the tree and the record
that was in `"other"`.  (Only the delete control is hidden for reserved keys.) -/
theorem reservedRename_counterexample :
    renameCategory [⟨"other".data, "Other".data⟩, ⟨"art".data, "Art".data⟩]
        [mkPrompt "a" "A" "other" "b"] "other".data "Misc".data
      = some ([⟨"misc".data, "Misc".data⟩, ⟨"art".data, "Art".data⟩],
              [{ mkPrompt "a" "A" "other" "b" with category := "misc".data }])
    ∧ delBtnHidden "other".data = true := by decide

/-- C6 (amended): reserved keys are protected against deletion only: the
delete control is hidden for `"favorites"` and `"other"`, while the rename
handler performs no reserved-key check, so renaming a reserved key succeeds
(running `updateDescendantKeys`) whenever the generic guards pass. -/
theorem reservedCategory_protection :
    (∀ k ∈ protectedKeys, delBtnHidden k = true)
    ∧ (∀ (tree : List CatNode) (ps : List Prompt) (k newDisplay : JsStr),
        k ∈ protectedKeys →
        newDisplay ≠ [] →
        jsToLower (jsTrim newDisplay) ≠ k →
        (tree.any fun n => n.key = jsToLower (jsTrim newDisplay)) = false →
        renameCategory tree ps k newDisplay
          = some (updateDescendantKeys k (jsToLower (jsTrim newDisplay))
              (jsTrim newDisplay) tree ps)) := by
  constructor
  · intro k hk
    simp only [delBtnHidden, List.any_eq_true, decide_eq_true_eq]
    exact ⟨k, hk, rfl⟩
  · intro tree ps k newDisplay _ hne hkey hconf
    simp only [renameCategory]
    rw [if_neg hne, if_neg hkey, if_neg (by simp [hconf])]

/-- Witness for C6 (amended): renaming `"other"` to `"Misc"` goes through. -/
theorem reservedCategory_protection_witness :
    renameCategory [⟨"other".data, "Other".data⟩] [mkPrompt "a" "A" "other" "b"]
        "other".data "Misc".data
      = some (updateDescendantKeys "other".data (jsToLower (jsTrim "Misc".data))
          (jsTrim "Misc".data) [⟨"other".data, "Other".data⟩]
          [mkPrompt "a" "A" "other" "b"]) :=
  reservedCategory_protection.2 [⟨"other".data, "Other".data⟩]
    [mkPrompt "a" "A" "other" "b"] "other".data "Misc".data
    (by decide) (by decide) (by decide) (by decide)

/-- C7 (code bug, evaluated at the failing input): searching `"fan"` over a
collection holding one record titled "Fantasy Landscape" produces no result
set — the per-card test dereferences the missing `.prompt-text` element and
throws — even though the term occurs in the record title, so the claimed
result set `{id}` is never produced. -/
theorem searchInputHandler_throws_on_cards :
    searchInputHandler "fan".data
        [createPromptCard (mkPrompt "p1" "Fantasy Landscape" "art" "body")] = none
    ∧ jsIncludes (jsToLower (mkPrompt "p1" "Fantasy Landscape" "art" "body").title)
        (jsTrim (jsToLower "fan".data)) = true
    ∧ searchInputHandler "fan".data [] = some [] := by decide

/-!
## Search cache invalidation
-/

/-- Counterexample for C8 as stated: with a populated search cache and a
nonempty undo stack, `undo()` changes the collection but leaves the cache
entry in place, so the next identical query is served from a stale cache. -/
theorem searchCache_stale_counterexample :
    (undo ⟨[mkPrompt "a" "A" "art" "b"], [], [[]], [],
        [("fan".data, ["a".data])]⟩).searchCache = [("fan".data, ["a".data])]
    ∧ (undo ⟨[mkPrompt "a" "A" "art" "b"], [], [[]], [],
        [("fan".data, ["a".data])]⟩).prompts
      ≠ (⟨[mkPrompt "a" "A" "art" "b"], [], [[]], [],
        [("fan".data, ["a".data])]⟩ : AppState).prompts := by decide

/-- C8 (amended): `savePrompt` (when validation passes) and the confirmed
delete clear the whole search cache; `undo`, `redo`, and the import handler
leave it untouched. -/
theorem searchCache_invalidation :
    ∀ (s : AppState) (form : FormInput) (eid : Option JsStr) (newId now : JsStr)
      (imgs : List JsStr) (inImg : Option JsStr) (pid : JsStr)
      (raw : List RawPrompt) (fresh : ℕ → JsStr),
      (jsTrim form.title ≠ [] → form.category ≠ [] → jsTrim form.text ≠ [] →
        (savePrompt form eid newId now imgs inImg s).searchCache = [])
      ∧ ((s.prompts.any fun p => p.id = pid) = true →
          (deletePrompt pid s).searchCache = [])
      ∧ (undo s).searchCache = s.searchCache
      ∧ (redo s).searchCache = s.searchCache
      ∧ (handleFileImport raw fresh now s).searchCache = s.searchCache := by
  intro s form eid newId now imgs inImg pid raw fresh
  refine ⟨?_, ?_, ?_, ?_, rfl⟩
  · intro h1 h2 h3
    simp only [savePrompt]
    rw [if_neg (by simp [h1, h2, h3])]
  · intro h
    simp only [deletePrompt]
    rw [if_pos h]
  · cases h : s.undoStack.getLast? <;> simp [undo, h]
  · cases h : s.redoStack.getLast? <;> simp [redo, h]

/-- Witness for C8 (amended): a concrete create clears the cache. -/
theorem searchCache_invalidation_witness :
    (savePrompt sampleForm none "id1".data "t".data [] none emptyState).searchCache = [] :=
  (searchCache_invalidation emptyState sampleForm none "id1".data "t".data [] none
      "x".data [] fun _ => []).1 (by decide) (by decide) (by decide)

/-!
## Share round trip
-/

lemma splitOnChar_ne_nil (sep : Char) (l : JsStr) : splitOnChar sep l ≠ [] := by
  cases l with
  | nil => simp [splitOnChar]
  | cons c cs =>
    simp only [splitOnChar]
    split
    · simp
    · split <;> simp

lemma splitOnChar_sep_cons (sep : Char) (l : JsStr) :
    splitOnChar sep (sep :: l) = [] :: splitOnChar sep l := by
  simp only [splitOnChar]
  cases h : splitOnChar sep l with
  | nil => exact absurd h (splitOnChar_ne_nil _ _)
  | cons a t => simp

lemma splitOnChar_other_cons (sep c : Char) (l : JsStr) (hc : ¬ c = sep) :
    splitOnChar sep (c :: l)
      = (c :: (splitOnChar sep l).headD []) :: (splitOnChar sep l).tail := by
  simp only [splitOnChar]
  cases h : splitOnChar sep l with
  | nil => exact absurd h (splitOnChar_ne_nil _ _)
  | cons a t => simp [if_neg hc]

lemma splitOnChar_no_sep (sep : Char) :
    ∀ l : JsStr, sep ∉ l → splitOnChar sep l = [l] := by
  intro l
  induction l with
  | nil => intro _; rfl
  | cons c cs ih =>
    intro h
    have hc : ¬ c = sep := fun hEq => h (hEq ▸ List.mem_cons_self c cs)
    have hcs : sep ∉ cs := fun hmem => h (List.mem_cons_of_mem c hmem)
    rw [splitOnChar_other_cons sep c cs hc, ih hcs]
    simp

lemma splitOnChar_append (sep : Char) :
    ∀ (xs ys : JsStr), sep ∉ xs →
      splitOnChar sep (xs ++ ys)
        = (xs ++ (splitOnChar sep ys).headD []) :: (splitOnChar sep ys).tail := by
  intro xs
  induction xs with
  | nil =>
    intro ys _
    cases h : splitOnChar sep ys with
    | nil => exact absurd h (splitOnChar_ne_nil _ _)
    | cons a t => simp [h]
  | cons x xs ih =>
    intro ys h
    have hx : ¬ x = sep := fun hEq => h (hEq ▸ List.mem_cons_self x xs)
    have hxs : sep ∉ xs := fun hmem => h (List.mem_cons_of_mem x hmem)
    rw [List.cons_append, splitOnChar_other_cons sep x (xs ++ ys) hx, ih ys hxs]
    simp

lemma jsTrim_space_cons (x : JsStr) : jsTrim (' ' :: x) = jsTrim x := by
  have hws : Char.isWhitespace ' ' = true := by decide
  simp [jsTrim, List.dropWhile_cons, hws]

lemma join_split_tags :
    ∀ ts : List JsStr,
      (∀ t ∈ ts, t ≠ [] ∧ ',' ∉ t ∧ jsTrim t = t) →
      ((splitOnChar ',' (joinComma ts)).map jsTrim).filter (· ≠ []) = ts := by
  intro ts
  induction ts with
  | nil => intro _; decide
  | cons t ts ih =>
    intro h
    obtain ⟨ht1, ht2, ht3⟩ := h t (List.mem_cons_self t ts)
    cases ts with
    | nil =>
      rw [show joinComma [t] = t from rfl, splitOnChar_no_sep ',' t ht2]
      simp only [List.map_cons, List.map_nil, ht3]
      rw [List.filter_cons_of_pos (by simpa using ht1)]
      simp
    | cons t2 ts2 =>
      have hrest := ih fun u hu => h u (List.mem_cons_of_mem t hu)
      rw [show joinComma (t :: t2 :: ts2) = t ++ ',' :: ' ' :: joinComma (t2 :: ts2)
            from rfl,
          splitOnChar_append ',' t _ ht2, splitOnChar_sep_cons,
          splitOnChar_other_cons ',' ' ' _ (by decide)]
      cases hJ : splitOnChar ',' (joinComma (t2 :: ts2)) with
      | nil => exact absurd hJ (splitOnChar_ne_nil _ _)
      | cons a tl =>
        have hrest2 :
            (jsTrim a :: tl.map jsTrim).filter (fun x => decide (x ≠ [])) = t2 :: ts2 := by
          rw [hJ] at hrest
          simpa using hrest
        simp only [List.headD_cons, List.tail_cons, List.append_nil, List.map_cons]
        rw [ht3, jsTrim_space_cons]
        rw [List.filter_cons_of_pos (by simpa using ht1)]
        rw [hrest2]

/-- C9: decoding a share token produced from a valid record (category
non-empty, as every record category references a node or `"other"`) restores
exactly the shared subset: title, category, tags (joined with `", "`, and
recovered verbatim by the save-time tag parser when the tags are the app's
clean form: non-empty, comma-free, trimmed), text, notes, and rating. -/
theorem share_roundtrip :
    ∀ p : Prompt,
      p.category ≠ [] →
      checkSharedPrompt (sharePrompt p)
        = ⟨p.title, p.category, joinComma p.tags, p.text, p.notes, p.rating⟩
      ∧ ((∀ t ∈ p.tags, t ≠ [] ∧ ',' ∉ t ∧ jsTrim t = t) →
          ((splitOnChar ',' (checkSharedPrompt (sharePrompt p)).tagsText).map jsTrim).filter
              (· ≠ []) = p.tags) := by
  intro p hcat
  have hform : checkSharedPrompt (sharePrompt p)
      = ⟨p.title, p.category, joinComma p.tags, p.text, p.notes, p.rating⟩ := by
    simp only [checkSharedPrompt, sharePrompt, jsOrStr, Option.getD_some]
    rw [SharedForm.mk.injEq]
    refine ⟨?_, ?_, rfl, ?_, ?_, ?_⟩
    · split <;> simp_all
    · split
      · exact absurd (by assumption) hcat
      · rfl
    · split <;> simp_all
    · split <;> simp_all
    · split <;> simp_all
  refine ⟨hform, fun htags => ?_⟩
  rw [hform]
  exact join_split_tags p.tags htags

/-- Witness for C9 at a concrete record. -/
theorem share_roundtrip_witness :
    checkSharedPrompt (sharePrompt (mkPrompt "w1" "T" "art" "B"))
      = ⟨"T".data, "art".data, joinComma [], "B".data, [], 0⟩ :=
  (share_roundtrip (mkPrompt "w1" "T" "art" "B") (by decide)).1

/-!
## Favorites toggle
-/

lemma any_id_eq_mem (l : List JsStr) (pid : JsStr) :
    (l.any fun x => x = pid) = true ↔ pid ∈ l := by
  simp [List.any_eq_true]

/-- C10: `toggleFavorite` touches only the favorites list: the collection and
both history stacks are unchanged; one call flips the membership of exactly
the given id; two consecutive calls restore the original membership. -/
theorem toggleFavorite_spec :
    ∀ (s : AppState) (pid : JsStr),
      s.favorites.Nodup →
      ((toggleFavorite pid s).prompts = s.prompts
        ∧ (toggleFavorite pid s).undoStack = s.undoStack
        ∧ (toggleFavorite pid s).redoStack = s.redoStack)
      ∧ (pid ∈ (toggleFavorite pid s).favorites ↔ pid ∉ s.favorites)
      ∧ (∀ x, x ≠ pid → (x ∈ (toggleFavorite pid s).favorites ↔ x ∈ s.favorites))
      ∧ (∀ x, x ∈ (toggleFavorite pid (toggleFavorite pid s)).favorites ↔ x ∈ s.favorites) := by
  intro s pid hnd
  by_cases hmem : pid ∈ s.favorites
  · have hany : (s.favorites.any fun x => x = pid) = true := (any_id_eq_mem _ _).mpr hmem
    have ht1 : toggleFavorite pid s = { s with favorites := s.favorites.erase pid } := by
      simp only [toggleFavorite]
      rw [if_pos hany]
    have hpidnot : pid ∉ s.favorites.erase pid := by
      intro hx
      exact absurd rfl (hnd.mem_erase_iff.mp hx).1
    have hcond2 : ¬ ((s.favorites.erase pid).any fun x => x = pid) = true := by
      rw [any_id_eq_mem]
      exact hpidnot
    have ht2 : toggleFavorite pid { s with favorites := s.favorites.erase pid }
        = { s with favorites := s.favorites.erase pid ++ [pid] } := by
      simp only [toggleFavorite]
      rw [if_neg hcond2]
    refine ⟨by rw [ht1]; exact ⟨rfl, rfl, rfl⟩, ?_, ?_, ?_⟩
    · rw [ht1]
      exact iff_of_false hpidnot (by simpa using hmem)
    · intro x hx
      rw [ht1]
      simp [hnd.mem_erase_iff, hx]
    · intro x
      rw [ht1, ht2]
      simp only [List.mem_append, List.mem_singleton]
      constructor
      · rintro (hx | rfl)
        · exact (hnd.mem_erase_iff.mp hx).2
        · exact hmem
      · intro hx2
        by_cases hx : x = pid
        · exact Or.inr hx
        · exact Or.inl (hnd.mem_erase_iff.mpr ⟨hx, hx2⟩)
  · have hany : ¬ (s.favorites.any fun x => x = pid) = true := by
      rw [any_id_eq_mem]
      exact hmem
    have ht1 : toggleFavorite pid s = { s with favorites := s.favorites ++ [pid] } := by
      simp only [toggleFavorite]
      rw [if_neg hany]
    have hmem2 : pid ∈ s.favorites ++ [pid] := by simp
    have hcond2 : ((s.favorites ++ [pid]).any fun x => x = pid) = true :=
      (any_id_eq_mem _ _).mpr hmem2
    have ht2 : toggleFavorite pid { s with favorites := s.favorites ++ [pid] }
        = { s with favorites := (s.favorites ++ [pid]).erase pid } := by
      simp only [toggleFavorite]
      rw [if_pos hcond2]
    have herase : (s.favorites ++ [pid]).erase pid = s.favorites := by
      rw [List.erase_append_right _ hmem, List.erase_cons_head, List.append_nil]
    refine ⟨by rw [ht1]; exact ⟨rfl, rfl, rfl⟩, ?_, ?_, ?_⟩
    · rw [ht1]
      exact iff_of_true hmem2 hmem
    · intro x hx
      rw [ht1]
      simp [hx]
    · intro x
      rw [ht1, ht2, herase]

/-- Witness for C10: toggling an absent id makes it a favorite. -/
theorem toggleFavorite_spec_witness :
    "x".data ∈ (toggleFavorite "x".data ⟨[], ["y".data], [], [], []⟩).favorites ↔
      "x".data ∉ (⟨[], ["y".data], [], [], []⟩ : AppState).favorites :=
  (toggleFavorite_spec ⟨[], ["y".data], [], [], []⟩ "x".data (by decide)).2.1
